import Mathlib

/-
Shallow embedding of src/vm/opt_parser.h (a POSIX-style command-line
option parser).  C++ exceptions are modelled as `Option String` error
components threaded through every operation; descriptor mutation is
modelled by explicit state passing.  Tokens and raw values are lists of
characters (the contents of the C++ `std::string`s); user-facing
messages are Lean `String`s built exactly as the C++ code builds them.
-/

/-- Typed stored value of an option descriptor: one constructor per
concrete descriptor class (BoolOpt, IntOpt, UintOpt, StrOpt). -/
inductive OptVal
  | boolV (b : Bool)
  | intV  (n : Int)
  | uintV (n : Nat)
  | strV  (s : List Char)
deriving DecidableEq

/-- An option descriptor: the fields of the C++ `Opt` base class plus the
typed stored value (`pValue` of the derived class) and the optional user
callback.  The callback is modelled as a function from the freshly stored
value to `Option String`: `some msg` models the callback throwing
`ParseException(msg)`, `none` a normal return; other callback side
effects are outside the model. -/
structure Opt where
  shortName : Char
  longName : String
  description : String := ""
  present : Bool := false
  val : OptVal
  callback : Option (OptVal → Option String) := none

/-- Parser state: the fields of the C++ `OptParser` object.  `opts` is the
registry (`argOptions`), `programName` starts empty, `programArgc` starts
at 0 and `programArgv` (modelled as the captured token list) starts null. -/
structure PState where
  opts : List Opt
  programName : List Char := []
  programArgc : Nat := 0
  programArgv : Option (List (List Char)) := none

/-- The C `isspace` predicate used by `strtoll`/`strtoull` when skipping
leading whitespace. -/
def isSpaceC (c : Char) : Bool :=
  c = ' ' || c = '\t' || c = '\n' || c = '\x0b' || c = '\x0c' || c = '\r'

/-- Numeric value of a digit character, as computed from its code point. -/
def digitVal (c : Char) : Nat := c.toNat - 48

/-- Accumulate a decimal digit string into a natural number, most
significant digit first, as the C library's decimal scan does. -/
def digitsToNat (ds : List Char) : Nat :=
  ds.foldl (fun a c => a * 10 + digitVal c) 0

/-- Optional sign handling of `strtoll`/`strtoull`: a leading `-` sets the
negative flag, a leading `+` is skipped, anything else leaves the input
untouched. -/
def splitSign (cs : List Char) : Bool × List Char :=
  match cs with
  | [] => (false, [])
  | c :: rest =>
    if c = '-' then (true, rest)
    else if c = '+' then (false, rest)
    else (false, c :: rest)

/-- Outcome of `std::stoll` / `std::stoull`: a parsed value, or one of the
two exceptions they can throw. -/
inductive StoResult (α : Type)
  | ok (n : α)
  | outOfRange
  | invalidArg
deriving DecidableEq

/-- The common scan of `strtoll`/`strtoull` (base 10): skip leading
whitespace, read an optional sign, take the longest digit prefix
(trailing characters are ignored); returns the negative flag and the
digit string. -/
def stollScan (cs : List Char) : Bool × List Char :=
  ((splitSign (cs.dropWhile isSpaceC)).1,
   (splitSign (cs.dropWhile isSpaceC)).2.takeWhile Char.isDigit)

/-- Model of `std::stoll(value)` (base 10): no digit at all throws
`invalid_argument`; a value outside the signed 64-bit range throws
`out_of_range`; otherwise the signed value of the digit prefix. -/
def stollCore (cs : List Char) : StoResult Int :=
  if (stollScan cs).2 = [] then .invalidArg
  else
    if (if (stollScan cs).1 then -(digitsToNat (stollScan cs).2 : Int)
        else (digitsToNat (stollScan cs).2 : Int)) < -9223372036854775808 ∨
       9223372036854775807 <
         (if (stollScan cs).1 then -(digitsToNat (stollScan cs).2 : Int)
          else (digitsToNat (stollScan cs).2 : Int)) then .outOfRange
    else .ok (if (stollScan cs).1 then -(digitsToNat (stollScan cs).2 : Int)
              else (digitsToNat (stollScan cs).2 : Int))

/-- Model of `std::stoull(value)` (base 10): as `stollCore` but the range
check is against the unsigned 64-bit maximum of the magnitude, and a
negative input wraps modulo 2^64 after the range check. -/
def stoullCore (cs : List Char) : StoResult Nat :=
  if (stollScan cs).2 = [] then .invalidArg
  else
    if 18446744073709551615 < digitsToNat (stollScan cs).2 then .outOfRange
    else .ok (if (stollScan cs).1 then
                (18446744073709551616 - digitsToNat (stollScan cs).2 % 18446744073709551616) %
                  18446744073709551616
              else digitsToNat (stollScan cs).2)

/-- The free function `isUint`: every character of the string is a decimal
digit (`std::all_of` with `::isdigit`; true on the empty string). -/
def isUint (cs : List Char) : Bool := cs.all Char.isDigit

/-- Invoke the user callback, if any, on the freshly stored value: the
tail of each `defaultHandler` success path. -/
def runCallback (o : Opt) : Opt × Option String :=
  match o.callback with
  | none => (o, none)
  | some f => (o, f o.val)

/-- The virtual `defaultHandler(isPresent, value)` of the four descriptor
classes, dispatched on the stored value's type; returns the (possibly
mutated) descriptor and `some msg` when the C++ code throws
`ParseException(msg)`.  Mutations performed before a throw are kept, as
they are in C++. -/
def defaultHandler (o : Opt) (isValPresent : Bool) (value : List Char) : Opt × Option String :=
  match o.val with
  | .boolV _ =>
    if isValPresent then (o, some ("Argument does not expect a value"))
    else runCallback { o with val := .boolV true }
  | .intV _ =>
    if !isValPresent then (o, some ("Argument expects an integer value"))
    else
      match stollCore value with
      | .ok n => runCallback { o with val := .intV n }
      | .outOfRange => (o, some ("Value is not in range of a 64 bit int"))
      | .invalidArg => (o, some ("Argument expects an integer value"))
  | .uintV _ =>
    if !isValPresent || !isUint value then
      (o, some ("Argument expects an non negative int value"))
    else
      match stoullCore value with
      | .ok n => runCallback { o with val := .uintV n }
      | .outOfRange => (o, some ("Value is not in range of a 64 bit unsigned integer"))
      | .invalidArg => (o, some ("Argument expects an non negative int value"))
  | .strV _ =>
    if !isValPresent then (o, some ("Argument expects a value"))
    else runCallback { o with val := .strV value }

/-- The body of the try-block in `OptParser::parse(key, ...)`: mark the
found descriptor present, then run its coercion handler. -/
def resolveOpt (o : Opt) (isValPresent : Bool) (value : List Char) : Opt × Option String :=
  defaultHandler { o with present := true } isValPresent value

/-- Find the first registry entry with the given short name
(`findArgByShortName`) and resolve it in place; `none` when no entry
matches. -/
def resolveShort : List Opt → Char → Bool → List Char → Option (List Opt × Option String)
  | [], _, _, _ => none
  | o :: os, c, p, v =>
    if o.shortName = c then
      let r := resolveOpt o p v
      some (r.1 :: os, r.2)
    else
      match resolveShort os c p v with
      | none => none
      | some (os', e) => some (o :: os', e)

/-- Find the first registry entry with the given long name
(`findArgByLongName`) and resolve it in place; `none` when no entry
matches. -/
def resolveLong : List Opt → String → Bool → List Char → Option (List Opt × Option String)
  | [], _, _, _ => none
  | o :: os, k, p, v =>
    if o.longName = k then
      let r := resolveOpt o p v
      some (r.1 :: os, r.2)
    else
      match resolveLong os k p v with
      | none => none
      | some (os', e) => some (o :: os', e)

/-- The catch-clause of `OptParser::parse(key, ...)`: a handler failure is
re-thrown as "Parsing of <key> failed: <inner message>". -/
def wrapMsg (key : String) : Option String → Option String
  | none => none
  | some m => some ("Parsing of " ++ key ++ " failed: " ++ m)

/-- `OptParser::parse(char key, bool, std::string)`: unknown short names
fail with "No such option <key>" (unwrapped); handler failures are
wrapped by `wrapMsg`. -/
def parseShortKey (st : PState) (c : Char) (p : Bool) (v : List Char) : PState × Option String :=
  match resolveShort st.opts c p v with
  | none => (st, some ("No such option " ++ String.mk [c]))
  | some (os', e) => ({ st with opts := os' }, wrapMsg (String.mk [c]) e)

/-- `OptParser::parse(std::string key, bool, std::string)`: the long-name
twin of `parseShortKey`. -/
def parseLongKey (st : PState) (name : List Char) (p : Bool) (v : List Char) : PState × Option String :=
  match resolveLong st.opts (String.mk name) p v with
  | none => (st, some ("No such option " ++ String.mk name))
  | some (os', e) => ({ st with opts := os' }, wrapMsg (String.mk name) e)

/-- Split a token at its first `=` (the `str.find("=")` / `substr` pair
used by both `parseShortName` and `parseLongName`): returns the text
before the first `=` and, when an `=` exists, the full text after it. -/
def splitEq : List Char → List Char × Option (List Char)
  | [] => ([], none)
  | c :: cs =>
    if c = '=' then ([], some cs)
    else
      let r := splitEq cs
      (c :: r.1, r.2)

/-- The no-`=` loop of `OptParser::parseShortName`: every character is an
independent value-less flag, resolved left to right, aborting at the
first failure. -/
def parseFlags : PState → List Char → PState × Option String
  | st, [] => (st, none)
  | st, c :: cs =>
    match parseShortKey st c false [] with
    | (st', none) => parseFlags st' cs
    | (st', some e) => (st', some e)

/-- The with-`=` loop of `OptParser::parseShortName`: every character of
`names` except the last is a value-less flag; the last receives the
value.  An empty `names` performs no resolution at all, exactly as the
C++ loop body never runs. -/
def parseClusterVal : PState → List Char → List Char → PState × Option String
  | st, [], _ => (st, none)
  | st, c :: cs, v =>
    if cs = [] then parseShortKey st c true v
    else
      match parseShortKey st c false [] with
      | (st', none) => parseClusterVal st' cs v
      | (st', some e) => (st', some e)

/-- `OptParser::parseShortName(token)` on the text after the leading
dash. -/
def parseShortName (st : PState) (cs : List Char) : PState × Option String :=
  match splitEq cs with
  | (_, none) => parseFlags st cs
  | (names, some v) => parseClusterVal st names v

/-- `OptParser::parseLongName(token)` on the text after the leading two
dashes. -/
def parseLongName (st : PState) (cs : List Char) : PState × Option String :=
  match splitEq cs with
  | (_, none) => parseLongKey st cs false []
  | (name, some v) => parseLongKey st name true v

/-- `OptParser::parseProgramName(name)`: fails ("Bad option - <name>")
when the single program-name slot is already filled. -/
def parseProgramName (st : PState) (cs : List Char) : PState × Option String :=
  if st.programName ≠ [] then (st, some ("Bad option - " ++ String.mk cs))
  else ({ st with programName := cs }, none)

/-- Classification of one token that is not the exact terminator `--`:
length < 2 means program name; a leading `-` selects short or long
option parsing; anything else is a program name.  This is the per-token
body of the scan loop in `OptParser::parse(int, char**)`. -/
def parseOne (st : PState) (tok : List Char) : PState × Option String :=
  if tok.length < 2 then parseProgramName st tok
  else
    match tok with
    | '-' :: '-' :: rest2 => parseLongName st rest2
    | '-' :: rest1 => parseShortName st rest1
    | _ => parseProgramName st tok

/-- The scan loop of `OptParser::parse(int argc, char** argv)` over
`argv[1:]`: tokens of length < 2 are program names; the exact token `--`
fails unless a program name is set and otherwise captures every
remaining token as the residual vector and stops; every other token is
classified by `parseOne`; the first failure aborts the scan, returning
the state reached so far. -/
def parseArgs : PState → List (List Char) → PState × Option String
  | st, [] => (st, none)
  | st, tok :: rest =>
    if tok.length < 2 then
      match parseProgramName st tok with
      | (st', none) => parseArgs st' rest
      | (st', some e) => (st', some e)
    else if tok = ['-', '-'] then
      if st.programName = [] then
        (st, some ("Program filename must be specified before arguments"))
      else
        ({ st with programArgc := rest.length, programArgv := some rest }, none)
    else
      match parseOne st tok with
      | (st', none) => parseArgs st' rest
      | (st', some e) => (st', some e)

/-- Character for a single decimal digit; used only to build canonical
decimal text in the statements quantifying over integers. -/
def digitChar : Nat → Char
  | 0 => '0'
  | 1 => '1'
  | 2 => '2'
  | 3 => '3'
  | 4 => '4'
  | 5 => '5'
  | 6 => '6'
  | 7 => '7'
  | 8 => '8'
  | 9 => '9'
  | _ => '?'

/-- Canonical decimal digit string of a natural number, most significant
digit first. -/
def natToDigits (m : Nat) : List Char :=
  if _ : m < 10 then [digitChar m]
  else natToDigits (m / 10) ++ [digitChar (m % 10)]
termination_by m
decreasing_by exact Nat.div_lt_self (by omega) (by omega)

/-- Canonical decimal text denoting an integer (the "decimal text" the
spec quantifies over): an optional minus sign followed by the digits of
the magnitude. -/
def intToDecimal (n : Int) : List Char :=
  if n < 0 then '-' :: natToDigits n.natAbs else natToDigits n.toNat

theorem digitChar_good (d : Nat) (h : d < 10) :
    isSpaceC (digitChar d) = false ∧ digitChar d ≠ '-' ∧ digitChar d ≠ '+' ∧
    (digitChar d).isDigit = true := by
  interval_cases d <;> decide

theorem digitVal_digitChar (d : Nat) (h : d < 10) : digitVal (digitChar d) = d := by
  interval_cases d <;> decide

theorem natToDigits_ne_nil (m : Nat) : natToDigits m ≠ [] := by
  rw [natToDigits]
  split <;> simp

theorem natToDigits_good (m : Nat) :
    ∀ c ∈ natToDigits m,
      isSpaceC c = false ∧ c ≠ '-' ∧ c ≠ '+' ∧ c.isDigit = true := by
  induction m using Nat.strong_induction_on with
  | _ m ih =>
    rw [natToDigits]
    split
    · next h =>
      intro c hc
      simp only [List.mem_singleton] at hc
      subst hc
      exact digitChar_good m h
    · next h =>
      intro c hc
      rcases List.mem_append.mp hc with h1 | h2
      · exact ih (m / 10) (Nat.div_lt_self (by omega) (by omega)) c h1
      · simp only [List.mem_singleton] at h2
        subst h2
        exact digitChar_good (m % 10) (Nat.mod_lt _ (by omega))

theorem digitsToNat_append_single (ds : List Char) (c : Char) :
    digitsToNat (ds ++ [c]) = digitsToNat ds * 10 + digitVal c := by
  simp [digitsToNat, List.foldl_append]

theorem digitsToNat_natToDigits (m : Nat) : digitsToNat (natToDigits m) = m := by
  induction m using Nat.strong_induction_on with
  | _ m ih =>
    rw [natToDigits]
    split
    · next h =>
      simp [digitsToNat, digitVal_digitChar m h]
    · next h =>
      rw [digitsToNat_append_single, ih (m / 10) (Nat.div_lt_self (by omega) (by omega)),
          digitVal_digitChar (m % 10) (Nat.mod_lt _ (by omega))]
      omega

theorem takeWhile_all (p : Char → Bool) (l : List Char) (h : ∀ c ∈ l, p c = true) :
    l.takeWhile p = l := by
  induction l with
  | nil => rfl
  | cons c cs ih =>
    simp only [List.takeWhile_cons]
    rw [h c (List.mem_cons_self c cs)]
    simp only [ite_true]
    rw [ih (fun x hx => h x (List.mem_cons_of_mem c hx))]

theorem natToDigits_shape (m : Nat) : ∃ c cs, natToDigits m = c :: cs := by
  cases hde : natToDigits m with
  | nil => exact absurd hde (natToDigits_ne_nil m)
  | cons c cs => exact ⟨c, cs, rfl⟩

theorem stollScan_digits (m : Nat) : stollScan (natToDigits m) = (false, natToDigits m) := by
  obtain ⟨c, cs, hcc⟩ := natToDigits_shape m
  have hc0 := natToDigits_good m c (by rw [hcc]; exact List.mem_cons_self c cs)
  have htw := takeWhile_all Char.isDigit (natToDigits m)
    (fun x hx => (natToDigits_good m x hx).2.2.2)
  rw [hcc] at htw ⊢
  simp only [stollScan, List.dropWhile_cons, hc0.1, Bool.false_eq_true, if_false,
    splitSign, if_neg hc0.2.1, if_neg hc0.2.2.1, htw]

theorem stollScan_neg_digits (m : Nat) :
    stollScan ('-' :: natToDigits m) = (true, natToDigits m) := by
  have hsp : isSpaceC '-' = false := by decide
  have htw := takeWhile_all Char.isDigit (natToDigits m)
    (fun x hx => (natToDigits_good m x hx).2.2.2)
  simp only [stollScan, List.dropWhile_cons, hsp, Bool.false_eq_true, if_false,
    splitSign, if_pos rfl, if_true, htw]

theorem stollCore_ok_nonneg (m : Nat) (hm : m ≤ 9223372036854775807) :
    stollCore (natToDigits m) = .ok (m : Int) := by
  have hval : digitsToNat (natToDigits m) = m := digitsToNat_natToDigits m
  simp only [stollCore, stollScan_digits, hval, Bool.false_eq_true, if_false]
  rw [if_neg (natToDigits_ne_nil m), if_neg (by omega)]

theorem stollCore_ok_neg (m : Nat) (hm : m ≤ 9223372036854775808) :
    stollCore ('-' :: natToDigits m) = .ok (-(m : Int)) := by
  have hval : digitsToNat (natToDigits m) = m := digitsToNat_natToDigits m
  simp only [stollCore, stollScan_neg_digits, hval, if_true]
  rw [if_neg (natToDigits_ne_nil m), if_neg (by omega)]

theorem stollCore_intToDecimal (n : Int)
    (h1 : -9223372036854775808 ≤ n) (h2 : n ≤ 9223372036854775807) :
    stollCore (intToDecimal n) = .ok n := by
  unfold intToDecimal
  by_cases hn : n < 0
  · rw [if_pos hn, stollCore_ok_neg n.natAbs (by omega)]
    congr 1
    omega
  · rw [if_neg hn, stollCore_ok_nonneg n.toNat (by omega)]
    congr 1
    omega

theorem splitEq_not_mem (cs : List Char) (h : '=' ∉ cs) : splitEq cs = (cs, none) := by
  induction cs with
  | nil => rfl
  | cons c cs ih =>
    have hc : ¬ c = '=' := by
      intro he
      subst he
      exact h (List.mem_cons_self _ _)
    simp only [splitEq, if_neg hc, ih (fun hm => h (List.mem_cons_of_mem c hm))]

theorem splitEq_append (ns v : List Char) (h : '=' ∉ ns) :
    splitEq (ns ++ '=' :: v) = (ns, some v) := by
  induction ns with
  | nil => simp [splitEq]
  | cons c cs ih =>
    have hc : ¬ c = '=' := by
      intro he
      subst he
      exact h (List.mem_cons_self _ _)
    have ih' := ih (fun hm => h (List.mem_cons_of_mem c hm))
    show splitEq (c :: (cs ++ '=' :: v)) = (c :: cs, some v)
    simp only [splitEq, if_neg hc, ih']

theorem parseShortName_no_eq (st : PState) (cs : List Char) (h : '=' ∉ cs) :
    parseShortName st cs = parseFlags st cs := by
  simp only [parseShortName, splitEq_not_mem cs h]

theorem parseShortName_with_eq (st : PState) (ns v : List Char) (h : '=' ∉ ns) :
    parseShortName st (ns ++ '=' :: v) = parseClusterVal st ns v := by
  simp only [parseShortName, splitEq_append ns v h]

theorem parseLongName_no_eq (st : PState) (cs : List Char) (h : '=' ∉ cs) :
    parseLongName st cs = parseLongKey st cs false [] := by
  simp only [parseLongName, splitEq_not_mem cs h]

theorem parseLongName_with_eq (st : PState) (ns v : List Char) (h : '=' ∉ ns) :
    parseLongName st (ns ++ '=' :: v) = parseLongKey st ns true v := by
  simp only [parseLongName, splitEq_append ns v h]

theorem parseClusterVal_append (st : PState) (ns : List Char) (c : Char) (v : List Char) :
    parseClusterVal st (ns ++ [c]) v =
      match parseFlags st ns with
      | (st', none) => parseShortKey st' c true v
      | (st', some e) => (st', some e) := by
  induction ns generalizing st with
  | nil => simp [parseClusterVal, parseFlags]
  | cons a as ih =>
    have hne : as ++ [c] ≠ [] := by simp
    show parseClusterVal st (a :: (as ++ [c])) v = _
    simp only [parseClusterVal, if_neg hne, parseFlags]
    cases hr : parseShortKey st a false [] with
    | mk st' e =>
      cases e with
      | none => exact ih st'
      | some msg => rfl

theorem runCallback_fst (o : Opt) : (runCallback o).1 = o := by
  cases h : o.callback <;> simp [runCallback, h]

theorem defaultHandler_present (o : Opt) (p : Bool) (v : List Char) :
    (defaultHandler o p v).1.present = o.present := by
  cases hv : o.val <;> simp only [defaultHandler, hv] <;> split <;>
    first
      | rfl
      | rw [runCallback_fst]
      | (split <;> first | rfl | rw [runCallback_fst])

theorem defaultHandler_boolFalse (o : Opt) (p : Bool) (v : List Char)
    (h : (defaultHandler o p v).1.val = .boolV false) : o.val = .boolV false := by
  cases hv : o.val with
  | boolV b =>
    rw [← hv]
    simp only [defaultHandler, hv] at h
    split at h
    · exact h
    · rw [runCallback_fst] at h
      simp at h
  | intV n =>
    rw [← hv]
    simp only [defaultHandler, hv] at h
    split at h
    · exact h
    · split at h
      · rw [runCallback_fst] at h
        simp at h
      · exact h
      · exact h
  | uintV n =>
    rw [← hv]
    simp only [defaultHandler, hv] at h
    split at h
    · exact h
    · split at h
      · rw [runCallback_fst] at h
        simp at h
      · exact h
      · exact h
  | strV s =>
    rw [← hv]
    simp only [defaultHandler, hv] at h
    split at h
    · exact h
    · rw [runCallback_fst] at h
      simp at h

theorem resolveShort_none (os : List Opt) (c : Char) (p : Bool) (v : List Char)
    (h : ∀ o ∈ os, o.shortName ≠ c) : resolveShort os c p v = none := by
  induction os with
  | nil => rfl
  | cons o os ih =>
    simp only [resolveShort, if_neg (h o (List.mem_cons_self _ _)),
      ih (fun x hx => h x (List.mem_cons_of_mem _ hx))]

theorem resolveLong_none (os : List Opt) (k : String) (p : Bool) (v : List Char)
    (h : ∀ o ∈ os, o.longName ≠ k) : resolveLong os k p v = none := by
  induction os with
  | nil => rfl
  | cons o os ih =>
    simp only [resolveLong, if_neg (h o (List.mem_cons_self _ _)),
      ih (fun x hx => h x (List.mem_cons_of_mem _ hx))]

theorem resolveShort_first (os₁ : List Opt) (o : Opt) (os₂ : List Opt) (c : Char)
    (p : Bool) (v : List Char)
    (h1 : ∀ x ∈ os₁, x.shortName ≠ c) (h2 : o.shortName = c) :
    resolveShort (os₁ ++ o :: os₂) c p v =
      some (os₁ ++ (resolveOpt o p v).1 :: os₂, (resolveOpt o p v).2) := by
  induction os₁ with
  | nil =>
    show resolveShort (o :: os₂) c p v = _
    simp only [resolveShort, if_pos h2, List.nil_append]
  | cons x xs ih =>
    have ih' := ih (fun y hy => h1 y (List.mem_cons_of_mem _ hy))
    show resolveShort (x :: (xs ++ o :: os₂)) c p v = _
    simp only [resolveShort, if_neg (h1 x (List.mem_cons_self _ _)), ih', List.cons_append]

theorem resolveLong_first (os₁ : List Opt) (o : Opt) (os₂ : List Opt) (k : String)
    (p : Bool) (v : List Char)
    (h1 : ∀ x ∈ os₁, x.longName ≠ k) (h2 : o.longName = k) :
    resolveLong (os₁ ++ o :: os₂) k p v =
      some (os₁ ++ (resolveOpt o p v).1 :: os₂, (resolveOpt o p v).2) := by
  induction os₁ with
  | nil =>
    show resolveLong (o :: os₂) k p v = _
    simp only [resolveLong, if_pos h2, List.nil_append]
  | cons x xs ih =>
    have ih' := ih (fun y hy => h1 y (List.mem_cons_of_mem _ hy))
    show resolveLong (x :: (xs ++ o :: os₂)) k p v = _
    simp only [resolveLong, if_neg (h1 x (List.mem_cons_self _ _)), ih', List.cons_append]

theorem resolveOpt_present (o : Opt) (p : Bool) (v : List Char) :
    (resolveOpt o p v).1.present = true := by
  unfold resolveOpt
  rw [defaultHandler_present]

/-- Pointwise relation between a registry before and after a parsing
step: a boolean option can end with stored value `false` only if it
already held `false` before the step (parsing only ever writes `true`). -/
inductive BoolMono : List Opt → List Opt → Prop
  | nil : BoolMono [] []
  | cons {o o' : Opt} {os os' : List Opt} :
      (o'.val = .boolV false → o.val = .boolV false) →
      BoolMono os os' → BoolMono (o :: os) (o' :: os')

theorem BoolMono.rfl : ∀ os : List Opt, BoolMono os os
  | [] => BoolMono.nil
  | _ :: os => BoolMono.cons (fun h => h) (BoolMono.rfl os)

theorem BoolMono.comp {a b c : List Opt} (h1 : BoolMono a b) (h2 : BoolMono b c) :
    BoolMono a c := by
  induction h1 generalizing c with
  | nil =>
    cases h2
    exact BoolMono.nil
  | cons hf _ ih =>
    cases h2 with
    | cons hg htl => exact BoolMono.cons (fun h => hf (hg h)) (ih htl)

theorem BoolMono.get {os os' : List Opt} (h : BoolMono os os') :
    ∀ (k : Nat) (o o' : Opt), os.get? k = some o → os'.get? k = some o' →
      o'.val = .boolV false → o.val = .boolV false := by
  induction h with
  | nil =>
    intro k o o' h1 _ _
    simp at h1
  | cons hf htl ih =>
    intro k o o' h1 h2 hb
    cases k with
    | zero =>
      simp only [List.get?] at h1 h2
      cases h1
      cases h2
      exact hf hb
    | succ k =>
      simp only [List.get?] at h1 h2
      exact ih k o o' h1 h2 hb

theorem boolMono_resolveShort (os : List Opt) (c : Char) (p : Bool) (v : List Char)
    (os' : List Opt) (e : Option String)
    (h : resolveShort os c p v = some (os', e)) : BoolMono os os' := by
  induction os generalizing os' with
  | nil => simp [resolveShort] at h
  | cons o os ih =>
    simp only [resolveShort] at h
    split at h
    · cases h
      refine BoolMono.cons ?_ (BoolMono.rfl os)
      intro hb
      exact defaultHandler_boolFalse { o with present := true } p v hb
    · cases hr : resolveShort os c p v with
      | none => rw [hr] at h; cases h
      | some r =>
        rw [hr] at h
        cases h
        exact BoolMono.cons (fun hb => hb) (ih r.1 (by rw [hr])) |>.comp (BoolMono.rfl _)

theorem boolMono_resolveLong (os : List Opt) (k : String) (p : Bool) (v : List Char)
    (os' : List Opt) (e : Option String)
    (h : resolveLong os k p v = some (os', e)) : BoolMono os os' := by
  induction os generalizing os' with
  | nil => simp [resolveLong] at h
  | cons o os ih =>
    simp only [resolveLong] at h
    split at h
    · cases h
      refine BoolMono.cons ?_ (BoolMono.rfl os)
      intro hb
      exact defaultHandler_boolFalse { o with present := true } p v hb
    · cases hr : resolveLong os k p v with
      | none => rw [hr] at h; cases h
      | some r =>
        rw [hr] at h
        cases h
        exact BoolMono.cons (fun hb => hb) (ih r.1 (by rw [hr]))

theorem boolMono_parseShortKey (st : PState) (c : Char) (p : Bool) (v : List Char) :
    BoolMono st.opts (parseShortKey st c p v).1.opts := by
  unfold parseShortKey
  cases hr : resolveShort st.opts c p v with
  | none => exact BoolMono.rfl _
  | some r => exact boolMono_resolveShort st.opts c p v r.1 r.2 (by rw [hr])

theorem boolMono_parseLongKey (st : PState) (name : List Char) (p : Bool) (v : List Char) :
    BoolMono st.opts (parseLongKey st name p v).1.opts := by
  unfold parseLongKey
  cases hr : resolveLong st.opts (String.mk name) p v with
  | none => exact BoolMono.rfl _
  | some r => exact boolMono_resolveLong st.opts (String.mk name) p v r.1 r.2 (by rw [hr])

theorem boolMono_parseFlags (st : PState) (cs : List Char) :
    BoolMono st.opts (parseFlags st cs).1.opts := by
  induction cs generalizing st with
  | nil => exact BoolMono.rfl _
  | cons c cs ih =>
    show BoolMono st.opts (parseFlags st (c :: cs)).1.opts
    simp only [parseFlags]
    cases hr : parseShortKey st c false [] with
    | mk st' e =>
      have h1 : BoolMono st.opts st'.opts := by
        have := boolMono_parseShortKey st c false []
        rw [hr] at this
        exact this
      cases e with
      | none => exact h1.comp (ih st')
      | some msg => exact h1

theorem boolMono_parseClusterVal (st : PState) (ns v : List Char) :
    BoolMono st.opts (parseClusterVal st ns v).1.opts := by
  induction ns generalizing st with
  | nil => exact BoolMono.rfl _
  | cons c cs ih =>
    show BoolMono st.opts (parseClusterVal st (c :: cs) v).1.opts
    simp only [parseClusterVal]
    split
    · exact boolMono_parseShortKey st c true v
    · cases hr : parseShortKey st c false [] with
      | mk st' e =>
        have h1 : BoolMono st.opts st'.opts := by
          have := boolMono_parseShortKey st c false []
          rw [hr] at this
          exact this
        cases e with
        | none => exact h1.comp (ih st')
        | some msg => exact h1

theorem boolMono_parseShortName (st : PState) (cs : List Char) :
    BoolMono st.opts (parseShortName st cs).1.opts := by
  unfold parseShortName
  cases h : splitEq cs with
  | mk names r =>
    cases r with
    | none => exact boolMono_parseFlags st cs
    | some v => exact boolMono_parseClusterVal st names v

theorem boolMono_parseLongName (st : PState) (cs : List Char) :
    BoolMono st.opts (parseLongName st cs).1.opts := by
  unfold parseLongName
  cases h : splitEq cs with
  | mk name r =>
    cases r with
    | none => exact boolMono_parseLongKey st cs false []
    | some v => exact boolMono_parseLongKey st name true v

theorem parseProgramName_opts (st : PState) (cs : List Char) :
    (parseProgramName st cs).1.opts = st.opts := by
  unfold parseProgramName
  split <;> rfl

theorem boolMono_parseOne (st : PState) (tok : List Char) :
    BoolMono st.opts (parseOne st tok).1.opts := by
  unfold parseOne
  split
  · rw [parseProgramName_opts]
    exact BoolMono.rfl _
  · split
    · exact boolMono_parseLongName _ _
    · exact boolMono_parseShortName _ _
    · rw [parseProgramName_opts]
      exact BoolMono.rfl _

theorem boolMono_parseArgs (st : PState) (toks : List (List Char)) :
    BoolMono st.opts (parseArgs st toks).1.opts := by
  induction toks generalizing st with
  | nil => exact BoolMono.rfl _
  | cons tok rest ih =>
    show BoolMono st.opts (parseArgs st (tok :: rest)).1.opts
    simp only [parseArgs]
    split
    · cases hr : parseProgramName st tok with
      | mk st' e =>
        have h1 : BoolMono st.opts st'.opts := by
          have := parseProgramName_opts st tok
          rw [hr] at this
          rw [← this]
          exact BoolMono.rfl _
        cases e with
        | none => exact h1.comp (ih st')
        | some msg => exact h1
    · split
      · split
        · exact BoolMono.rfl _
        · exact BoolMono.rfl _
      · cases hr : parseOne st tok with
        | mk st' e =>
          have h1 : BoolMono st.opts st'.opts := by
            have := boolMono_parseOne st tok
            rw [hr] at this
            exact this
          cases e with
          | none => exact h1.comp (ih st')
          | some msg => exact h1

theorem parseShortKey_unknown (st : PState) (c : Char) (p : Bool) (v : List Char)
    (h : ∀ o ∈ st.opts, o.shortName ≠ c) :
    parseShortKey st c p v = (st, some ("No such option " ++ String.mk [c])) := by
  unfold parseShortKey
  rw [resolveShort_none st.opts c p v h]

theorem parseLongKey_unknown (st : PState) (name : List Char) (p : Bool) (v : List Char)
    (h : ∀ o ∈ st.opts, o.longName ≠ String.mk name) :
    parseLongKey st name p v = (st, some ("No such option " ++ String.mk name)) := by
  unfold parseLongKey
  rw [resolveLong_none st.opts (String.mk name) p v h]

theorem parseShortKey_first (st : PState) (c : Char) (p : Bool) (v : List Char)
    (os₁ : List Opt) (o : Opt) (os₂ : List Opt)
    (hst : st.opts = os₁ ++ o :: os₂)
    (h1 : ∀ x ∈ os₁, x.shortName ≠ c) (h2 : o.shortName = c) :
    parseShortKey st c p v =
      ({ st with opts := os₁ ++ (resolveOpt o p v).1 :: os₂ },
        wrapMsg (String.mk [c]) (resolveOpt o p v).2) := by
  unfold parseShortKey
  rw [hst, resolveShort_first os₁ o os₂ c p v h1 h2]

theorem parseLongKey_first (st : PState) (name : List Char) (p : Bool) (v : List Char)
    (os₁ : List Opt) (o : Opt) (os₂ : List Opt)
    (hst : st.opts = os₁ ++ o :: os₂)
    (h1 : ∀ x ∈ os₁, x.longName ≠ String.mk name) (h2 : o.longName = String.mk name) :
    parseLongKey st name p v =
      ({ st with opts := os₁ ++ (resolveOpt o p v).1 :: os₂ },
        wrapMsg (String.mk name) (resolveOpt o p v).2) := by
  unfold parseLongKey
  rw [hst, resolveLong_first os₁ o os₂ (String.mk name) p v h1 h2]

theorem parseArgs_cons (st : PState) (tok : List Char) (rest : List (List Char))
    (h : tok ≠ ['-', '-']) :
    parseArgs st (tok :: rest) =
      match parseOne st tok with
      | (st', none) => parseArgs st' rest
      | (st', some e) => (st', some e) := by
  simp only [parseArgs]
  by_cases hl : tok.length < 2
  · rw [if_pos hl]
    unfold parseOne
    rw [if_pos hl]
  · rw [if_neg hl, if_neg h]

theorem parseArgs_ok_append :
    ∀ (pre : List (List Char)) (st st1 : PState) (rest : List (List Char)),
      ['-', '-'] ∉ pre → parseArgs st pre = (st1, none) →
      parseArgs st (pre ++ rest) = parseArgs st1 rest := by
  intro pre
  induction pre with
  | nil =>
    intro st st1 rest _ h
    have h1 : st = st1 := congrArg Prod.fst h
    subst h1
    rfl
  | cons tok pre ih =>
    intro st st1 rest hd h
    have htok : tok ≠ ['-', '-'] := by
      intro he
      apply hd
      rw [← he]
      exact List.mem_cons_self _ _
    have hd' : ['-', '-'] ∉ pre := fun hm => hd (List.mem_cons_of_mem _ hm)
    rw [show (tok :: pre) ++ rest = tok :: (pre ++ rest) from rfl]
    rw [parseArgs_cons st tok (pre ++ rest) htok]
    rw [parseArgs_cons st tok pre htok] at h
    cases hr : parseOne st tok with
    | mk st' e =>
      simp only [hr] at h ⊢
      cases e with
      | none => exact ih st' st1 rest hd' h
      | some msg =>
        have h2 : some msg = (none : Option String) := congrArg Prod.snd h
        cases h2

theorem parseArgs_dashdash (st : PState) (rest : List (List Char)) :
    (st.programName = [] →
      parseArgs st (['-', '-'] :: rest) =
        (st, some ("Program filename must be specified before arguments"))) ∧
    (st.programName ≠ [] →
      parseArgs st (['-', '-'] :: rest) =
        ({ st with programArgc := rest.length, programArgv := some rest }, none)) := by
  constructor
  · intro h
    simp only [parseArgs, if_true]
    rw [if_pos h, if_neg (by decide)]
  · intro h
    simp only [parseArgs, if_true]
    rw [if_neg h, if_neg (by decide)]

/-- The `is` descriptor of the self-tests: boolean, short `i`. -/
def isOpt : Opt :=
  { shortName := 'i', longName := "is", description := "the value of some field is",
    val := .boolV false }

/-- The `js` descriptor of the self-tests: signed 64-bit, short `j`,
default 1100. -/
def jsOpt : Opt :=
  { shortName := 'j', longName := "js", description := "the value of some field js",
    val := .intV 1100 }

/-- The `ks` descriptor of the self-tests: unsigned 64-bit, no short name
(sentinel `-`), default 2200. -/
def ksOpt : Opt :=
  { shortName := '-', longName := "ks", description := "the value of some field ks",
    val := .uintV 2200 }

/-- The `ls` descriptor of the self-tests: string, short `l`, default
"Blah". -/
def lsOpt : Opt :=
  { shortName := 'l', longName := "ls", description := "the value of some field ls",
    val := .strV ['B', 'l', 'a', 'h'] }

/-- A freshly constructed parser holding the four self-test descriptors. -/
def testRegistry : PState := { opts := [isOpt, jsOpt, ksOpt, lsOpt] }

/-- C1: in a short-option cluster without `=` every character is an
independent boolean-style flag resolved left to right; with `=` every
character before the `=` except the last resolves exactly like such a
flag and the last receives the text after the `=` as attached value; in
particular `-ij=100` sets `i` present, `j` present with value 100, and
leaves every other registered option absent. -/
theorem C1_shortCluster :
    (∀ (st : PState) (cs : List Char), '=' ∉ cs →
      parseShortName st cs = parseFlags st cs) ∧
    (∀ (st : PState) (ns : List Char) (c : Char) (v : List Char), '=' ∉ ns → c ≠ '=' →
      parseShortName st ((ns ++ [c]) ++ '=' :: v) =
        match parseFlags st ns with
        | (st', none) => parseShortKey st' c true v
        | (st', some e) => (st', some e)) ∧
    parseArgs testRegistry [['-', 'i', 'j', '=', '1', '0', '0']] =
      ({ opts := [{ isOpt with present := true, val := .boolV true },
                  { jsOpt with present := true, val := .intV 100 },
                  ksOpt, lsOpt] }, none) := by
  refine ⟨fun st cs h => parseShortName_no_eq st cs h, fun st ns c v h hc => ?_, rfl⟩
  have hmem : '=' ∉ ns ++ [c] := by
    intro hm
    rcases List.mem_append.mp hm with h1 | h2
    · exact h h1
    · simp only [List.mem_singleton] at h2
      exact hc h2.symm
  rw [parseShortName_with_eq st (ns ++ [c]) v hmem, parseClusterVal_append]

/-- C1 witness: the general cluster equations applied to the concrete
token `ij=100` split as `i`, `j`, value `100`. -/
theorem C1_shortCluster_witness :
    parseShortName testRegistry ['i', 'j'] = parseFlags testRegistry ['i', 'j'] ∧
    parseShortName testRegistry ['i', 'j', '=', '1', '0', '0'] =
      match parseFlags testRegistry ['i'] with
      | (st', none) => parseShortKey st' 'j' true ['1', '0', '0']
      | (st', some e) => (st', some e) := by
  exact ⟨C1_shortCluster.1 testRegistry ['i', 'j'] (by decide),
    C1_shortCluster.2.1 testRegistry ['i'] 'j' ['1', '0', '0'] (by decide) (by decide)⟩

/-- C2: the exact token `--` fails with "Program filename must be
specified before arguments" when no program name is assigned yet;
otherwise every following token is captured unprocessed, unchanged and
in order as the residual vector (with matching count), scanning halts at
once and no descriptor is touched. -/
theorem C2_terminator :
    ∀ (st : PState) (rest : List (List Char)),
      (st.programName = [] →
        parseArgs st (['-', '-'] :: rest) =
          (st, some ("Program filename must be specified before arguments"))) ∧
      (st.programName ≠ [] →
        parseArgs st (['-', '-'] :: rest) =
          ({ st with programArgc := rest.length, programArgv := some rest }, none)) := by
  intro st rest
  exact parseArgs_dashdash st rest

/-- C2 witness: the terminator at an empty and at a filled program-name
slot. -/
theorem C2_terminator_witness :
    parseArgs { opts := [] } [['-', '-'], ['x']] =
      ({ opts := [] }, some ("Program filename must be specified before arguments")) ∧
    parseArgs { opts := [], programName := ['p'] } [['-', '-'], ['a', 'b'], ['c']] =
      ({ opts := [], programName := ['p'], programArgc := 2,
         programArgv := some [['a', 'b'], ['c']] }, none) := by
  exact ⟨(C2_terminator { opts := [] } [['x']]).1 rfl,
    (C2_terminator { opts := [], programName := ['p'] } [['a', 'b'], ['c']]).2 (by decide)⟩

/-- C3: signed-integer coercion of the decimal text of any integer in
the signed 64-bit range stores exactly that integer; coercion of the
text "9223372036854775808" (2^63) fails with the range error and leaves
the stored value (the whole descriptor) unchanged. -/
theorem C3_intRoundTrip :
    (∀ (o : Opt) (d n : Int), o.val = .intV d →
      -9223372036854775808 ≤ n → n ≤ 9223372036854775807 →
      (defaultHandler o true (intToDecimal n)).1.val = .intV n) ∧
    (∀ (o : Opt) (d : Int), o.val = .intV d →
      defaultHandler o true
          ['9', '2', '2', '3', '3', '7', '2', '0', '3', '6', '8', '5', '4', '7', '7', '5', '8', '0', '8'] =
        (o, some ("Value is not in range of a 64 bit int"))) := by
  constructor
  · intro o d n hval h1 h2
    simp only [defaultHandler, hval, Bool.not_true, Bool.false_eq_true, if_false,
      stollCore_intToDecimal n h1 h2]
    rw [runCallback_fst]
  · intro o d hval
    have hb : stollCore
        ['9', '2', '2', '3', '3', '7', '2', '0', '3', '6', '8', '5', '4', '7', '7', '5', '8', '0', '8'] =
        .outOfRange := by decide
    simp only [defaultHandler, hval, Bool.not_true, Bool.false_eq_true, if_false, hb]

/-- C3 witness: round trip at 42 and at the two range endpoints on the
`js` descriptor, and the overflow failure at 2^63. -/
theorem C3_intRoundTrip_witness :
    (defaultHandler jsOpt true (intToDecimal 42)).1.val = .intV 42 ∧
    (defaultHandler jsOpt true (intToDecimal (-9223372036854775808))).1.val =
      .intV (-9223372036854775808) ∧
    (defaultHandler jsOpt true (intToDecimal 9223372036854775807)).1.val =
      .intV 9223372036854775807 ∧
    defaultHandler jsOpt true
        ['9', '2', '2', '3', '3', '7', '2', '0', '3', '6', '8', '5', '4', '7', '7', '5', '8', '0', '8'] =
      (jsOpt, some ("Value is not in range of a 64 bit int")) := by
  exact ⟨C3_intRoundTrip.1 jsOpt 1100 42 rfl (by decide) (by decide),
    C3_intRoundTrip.1 jsOpt 1100 (-9223372036854775808) rfl (by decide) (by decide),
    C3_intRoundTrip.1 jsOpt 1100 9223372036854775807 rfl (by decide) (by decide),
    C3_intRoundTrip.2 jsOpt 1100 rfl⟩

/-- C4: unsigned-integer coercion fails when no value is attached or the
text holds any non-digit character (so any text containing a minus sign
fails); the text "9223372036854775808" succeeds and stores exactly 2^63. -/
theorem C4_uintGuard :
    (∀ (o : Opt) (d : Nat) (v : List Char), o.val = .uintV d →
      defaultHandler o false v = (o, some ("Argument expects an non negative int value"))) ∧
    (∀ (o : Opt) (d : Nat) (v : List Char) (c : Char), o.val = .uintV d →
      c ∈ v → c.isDigit = false →
      defaultHandler o true v = (o, some ("Argument expects an non negative int value"))) ∧
    (∀ (o : Opt) (d : Nat), o.val = .uintV d → o.callback = none →
      defaultHandler o true
          ['9', '2', '2', '3', '3', '7', '2', '0', '3', '6', '8', '5', '4', '7', '7', '5', '8', '0', '8'] =
        ({ o with val := .uintV (2 ^ 63) }, none)) := by
  refine ⟨fun o d v hval => ?_, fun o d v c hval hmem hdig => ?_, fun o d hval hcb => ?_⟩
  · simp [defaultHandler, hval]
  · have hu : isUint v = false := by
      rw [isUint]
      rw [List.all_eq_false]
      exact ⟨c, hmem, by rw [hdig]; decide⟩
    simp [defaultHandler, hval, hu]
  · have hu : isUint
        ['9', '2', '2', '3', '3', '7', '2', '0', '3', '6', '8', '5', '4', '7', '7', '5', '8', '0', '8'] =
        true := by decide
    have hb : stoullCore
        ['9', '2', '2', '3', '3', '7', '2', '0', '3', '6', '8', '5', '4', '7', '7', '5', '8', '0', '8'] =
        .ok 9223372036854775808 := by decide
    have h63 : (2 : Nat) ^ 63 = 9223372036854775808 := by norm_num
    simp only [defaultHandler, hval, hu, hb, Bool.not_true, Bool.false_or,
      Bool.false_eq_true, if_false, runCallback, hcb, h63]

/-- C4 witness: missing value, the text `-22`, and the exact 2^63 text on
the `ks` descriptor. -/
theorem C4_uintGuard_witness :
    defaultHandler ksOpt false ['5'] =
      (ksOpt, some ("Argument expects an non negative int value")) ∧
    defaultHandler ksOpt true ['-', '2', '2'] =
      (ksOpt, some ("Argument expects an non negative int value")) ∧
    defaultHandler ksOpt true
        ['9', '2', '2', '3', '3', '7', '2', '0', '3', '6', '8', '5', '4', '7', '7', '5', '8', '0', '8'] =
      ({ ksOpt with val := .uintV (2 ^ 63) }, none) := by
  exact ⟨C4_uintGuard.1 ksOpt 2200 ['5'] rfl,
    C4_uintGuard.2.1 ksOpt 2200 ['-', '2', '2'] '-' rfl (by decide) (by decide),
    C4_uintGuard.2.2 ksOpt 2200 rfl rfl⟩

/-- C5: after a successful prefix, the first failing token aborts the
scan: the tokens after it are never processed (the result does not
depend on them) and the returned state is exactly the state reached when
the failure occurred, so every descriptor mutation made before the
failure stays visible. -/
theorem C5_firstFailureAborts :
    ∀ (st st1 st2 : PState) (pre : List (List Char)) (tok : List Char)
      (rest : List (List Char)) (e : String),
      ['-', '-'] ∉ pre →
      parseArgs st pre = (st1, none) →
      (tok ≠ ['-', '-'] → parseOne st1 tok = (st2, some e) →
        parseArgs st (pre ++ tok :: rest) = (st2, some e)) ∧
      (st1.programName = [] →
        parseArgs st (pre ++ ['-', '-'] :: rest) =
          (st1, some ("Program filename must be specified before arguments"))) := by
  intro st st1 st2 pre tok rest e hpre hok
  constructor
  · intro htok hfail
    rw [parseArgs_ok_append pre st st1 (tok :: rest) hpre hok,
      parseArgs_cons st1 tok rest htok, hfail]
  · intro hpn
    rw [parseArgs_ok_append pre st st1 (['-', '-'] :: rest) hpre hok]
    exact (parseArgs_dashdash st1 rest).1 hpn

/-- C5 witness: one successful token `--is`, then the failing token
`-x=4`; the tokens after the failure are ignored and the state keeps the
mutation of `is`. -/
theorem C5_firstFailureAborts_witness :
    parseArgs testRegistry
        ([['-', '-', 'i', 's']] ++ ['-', 'x', '=', '4'] :: [['a', 'b', 'c']]) =
      ({ opts := [{ isOpt with present := true, val := .boolV true }, jsOpt, ksOpt, lsOpt] },
        some ("No such option x")) ∧
    parseArgs testRegistry ([['-', '-', 'i', 's']] ++ ['-', '-'] :: [['a', 'b', 'c']]) =
      ({ opts := [{ isOpt with present := true, val := .boolV true }, jsOpt, ksOpt, lsOpt] },
        some ("Program filename must be specified before arguments")) := by
  have h := C5_firstFailureAborts testRegistry
    { opts := [{ isOpt with present := true, val := .boolV true }, jsOpt, ksOpt, lsOpt] }
    { opts := [{ isOpt with present := true, val := .boolV true }, jsOpt, ksOpt, lsOpt] }
    [['-', '-', 'i', 's']] ['-', 'x', '=', '4'] [['a', 'b', 'c']] "No such option x"
    (by decide) rfl
  exact ⟨h.1 (by decide) rfl, h.2 rfl⟩

/-- C6: an option token naming a short or long name with no matching
registered descriptor fails with "No such option <name>" and mutates no
descriptor: the state is returned exactly as it was; in particular
`-x=4` against the test registry (which lacks `x`). -/
theorem C6_unknownOption :
    (∀ (st : PState) (c : Char) (p : Bool) (v : List Char),
      (∀ o ∈ st.opts, o.shortName ≠ c) →
      parseShortKey st c p v = (st, some ("No such option " ++ String.mk [c]))) ∧
    (∀ (st : PState) (name : List Char) (p : Bool) (v : List Char),
      (∀ o ∈ st.opts, o.longName ≠ String.mk name) →
      parseLongKey st name p v = (st, some ("No such option " ++ String.mk name))) ∧
    parseArgs testRegistry [['-', 'x', '=', '4']] =
      (testRegistry, some ("No such option x")) := by
  exact ⟨parseShortKey_unknown, parseLongKey_unknown, rfl⟩

/-- C6 witness: the unknown short name `x` and the unknown long name
`zz` against the test registry. -/
theorem C6_unknownOption_witness :
    parseShortKey testRegistry 'x' true ['4'] =
      (testRegistry, some ("No such option x")) ∧
    parseLongKey testRegistry ['z', 'z'] false [] =
      (testRegistry, some ("No such option zz")) := by
  exact ⟨C6_unknownOption.1 testRegistry 'x' true ['4'] (by decide),
    C6_unknownOption.2.1 testRegistry ['z', 'z'] false [] (by decide)⟩

/-- C7: boolean coercion fails when a value is attached; resolving a
boolean option without a value sets both the presence flag and the
stored value to true; and no parse run can ever turn a boolean option's
stored value to false. -/
theorem C7_boolCoercion :
    (∀ (o : Opt) (b : Bool) (v : List Char), o.val = .boolV b →
      defaultHandler o true v = (o, some ("Argument does not expect a value"))) ∧
    (∀ (o : Opt) (b : Bool) (v : List Char), o.val = .boolV b → o.callback = none →
      resolveOpt o false v = ({ o with present := true, val := .boolV true }, none)) ∧
    (∀ (st : PState) (toks : List (List Char)) (k : Nat) (o o' : Opt),
      st.opts.get? k = some o → (parseArgs st toks).1.opts.get? k = some o' →
      o'.val = .boolV false → o.val = .boolV false) := by
  refine ⟨fun o b v hval => ?_, fun o b v hval hcb => ?_,
    fun st toks k o o' h1 h2 hb => ?_⟩
  · simp [defaultHandler, hval]
  · simp [resolveOpt, defaultHandler, hval, runCallback, hcb]
  · exact (boolMono_parseArgs st toks).get k o o' h1 h2 hb

/-- C7 witness: attached value failure and value-less success on the
`is` descriptor; monotonicity instantiated on a run that leaves `is`
at its `false` default. -/
theorem C7_boolCoercion_witness :
    defaultHandler isOpt true ['1'] =
      (isOpt, some ("Argument does not expect a value")) ∧
    resolveOpt isOpt false [] =
      ({ isOpt with present := true, val := .boolV true }, none) ∧
    isOpt.val = .boolV false := by
  exact ⟨C7_boolCoercion.1 isOpt false ['1'] rfl,
    C7_boolCoercion.2.1 isOpt false [] rfl rfl,
    C7_boolCoercion.2.2 testRegistry [['-', 'j', '=', '7']] 0 isOpt isOpt rfl rfl rfl⟩

/-- C8: a long-option token is split on the first `=` only: with no `=`
the whole remainder is the name and no value is passed; with `=` the
name is the text before the first `=` and the value is the entire text
after it (possibly empty, possibly containing `=`); a string option
stores that value verbatim, as `--ls=some other value` shows. -/
theorem C8_longOption :
    (∀ (st : PState) (cs : List Char), '=' ∉ cs →
      parseLongName st cs = parseLongKey st cs false []) ∧
    (∀ (st : PState) (name v : List Char), '=' ∉ name →
      parseLongName st (name ++ '=' :: v) = parseLongKey st name true v) ∧
    (∀ (o : Opt) (w v : List Char), o.val = .strV w → o.callback = none →
      defaultHandler o true v = ({ o with val := .strV v }, none)) ∧
    parseArgs testRegistry
        [['-', '-', 'l', 's', '=', 's', 'o', 'm', 'e', ' ', 'o', 't', 'h', 'e', 'r', ' ',
          'v', 'a', 'l', 'u', 'e']] =
      ({ opts := [isOpt, jsOpt, ksOpt, { lsOpt with present := true, val := .strV ['s', 'o', 'm', 'e', ' ', 'o', 't', 'h', 'e', 'r', ' ', 'v', 'a', 'l', 'u', 'e'] }] }, none) := by
  refine ⟨parseLongName_no_eq, parseLongName_with_eq, fun o w v hval hcb => ?_, rfl⟩
  simp [defaultHandler, hval, runCallback, hcb]

/-- C8 witness: the split equations on the `ls=some other value` token
(whose value holds spaces) and on a value that itself holds `=` and on
an empty value; verbatim storage on the `ls` descriptor. -/
theorem C8_longOption_witness :
    parseLongName testRegistry ['l', 's'] = parseLongKey testRegistry ['l', 's'] false [] ∧
    parseLongName testRegistry ['l', 's', '=', 'a', '=', 'b'] =
      parseLongKey testRegistry ['l', 's'] true ['a', '=', 'b'] ∧
    parseLongName testRegistry ['l', 's', '='] = parseLongKey testRegistry ['l', 's'] true [] ∧
    defaultHandler lsOpt true ['s', 'o', 'm', 'e', ' ', 'o', 't', 'h', 'e', 'r', ' ',
        'v', 'a', 'l', 'u', 'e'] =
      ({ lsOpt with val := .strV ['s', 'o', 'm', 'e', ' ', 'o', 't', 'h', 'e', 'r', ' ',
          'v', 'a', 'l', 'u', 'e'] }, none) := by
  exact ⟨C8_longOption.1 testRegistry ['l', 's'] (by decide),
    C8_longOption.2.1 testRegistry ['l', 's'] ['a', '=', 'b'] (by decide),
    C8_longOption.2.1 testRegistry ['l', 's'] [] (by decide),
    C8_longOption.2.2.1 lsOpt ['B', 'l', 'a', 'h'] ['s', 'o', 'm', 'e', ' ', 'o', 't',
      'h', 'e', 'r', ' ', 'v', 'a', 'l', 'u', 'e'] rfl rfl⟩

/-- A descriptor whose user callback always raises the message "boom". -/
def boomOpt : Opt :=
  { shortName := 'j', longName := "js", val := .intV 1100,
    callback := some (fun _ => some ("boom")) }

/-- C9 counterexample: a callback raising "boom" during the resolution of
`-j=5` is observed by the parse caller as "Parsing of j failed: boom",
not as the raised message itself. -/
theorem C9_callbackPassThrough_cex :
    (parseArgs { opts := [boomOpt] } [['-', 'j', '=', '5']]).2 =
      some ("Parsing of j failed: boom") ∧
    some ("Parsing of j failed: boom") ≠ some ("boom") := by
  exact ⟨rfl, by decide⟩

/-- C9 (amended): a failure raised by the user callback propagates with
exactly one layer of context added by the dispatch boundary: the caller
observes "Parsing of <name> failed: <callback message>", the callback's
message preserved verbatim as the suffix and nothing else altered. -/
theorem C9_callbackWrapped :
    ∀ (st : PState) (c : Char) (o : Opt) (os₂ : List Opt) (f : OptVal → Option String)
      (d n : Int) (v : List Char) (m : String),
      st.opts = o :: os₂ → o.shortName = c → o.val = .intV d → o.callback = some f →
      stollCore v = .ok n → f (.intV n) = some m →
      parseShortKey st c true v =
        ({ st with opts := { o with present := true, val := .intV n } :: os₂ },
          some ("Parsing of " ++ String.mk [c] ++ " failed: " ++ m)) := by
  intro st c o os₂ f d n v m hst hsn hval hcb hsto hf
  have hfirst := parseShortKey_first st c true v [] o os₂ (by rw [hst]; rfl)
    (by intro x hx; cases hx) hsn
  rw [hfirst]
  have hres : resolveOpt o true v = ({ o with present := true, val := .intV n }, some m) := by
    simp only [resolveOpt, defaultHandler, hval, Bool.not_true, Bool.false_eq_true,
      if_false, hsto, runCallback, hcb, hf]
  rw [hres]
  rfl

/-- C9 witness: the amended statement at the concrete registry holding
only the callback-raising `js` descriptor and the token `-j=5`. -/
theorem C9_callbackWrapped_witness :
    parseShortKey { opts := [boomOpt] } 'j' true ['5'] =
      ({ opts := [{ boomOpt with present := true, val := .intV 5 }] },
        some ("Parsing of j failed: boom")) := by
  exact C9_callbackWrapped { opts := [boomOpt] } 'j' boomOpt []
    (fun _ => some ("boom")) 1100 5 ['5'] "boom" rfl rfl rfl rfl (by decide) rfl

theorem resolveOpt_intFailure (o : Opt) (p : Bool) (v : List Char) (d : Int)
    (hval : o.val = .intV d) (hcb : o.callback = none)
    (hfail : (resolveOpt o p v).2 ≠ none) :
    (resolveOpt o p v).1.val = .intV d := by
  simp only [resolveOpt, defaultHandler, hval] at hfail ⊢
  cases p with
  | false => rfl
  | true =>
    simp only [Bool.not_true, Bool.false_eq_true, if_false] at hfail ⊢
    cases hsto : stollCore v with
    | ok n =>
      rw [hsto] at hfail
      simp [runCallback, hcb] at hfail
    | outOfRange => rfl
    | invalidArg => rfl

/-- C10: resolution of a registered name marks the descriptor present
before its coercion runs, so the descriptor reports present even when
the coercion fails; for integer format and range failures the stored
typed value is unchanged. -/
theorem C10_presentBeforeCoercion :
    ∀ (st : PState) (c : Char) (p : Bool) (v : List Char)
      (os₁ : List Opt) (o : Opt) (os₂ : List Opt),
      st.opts = os₁ ++ o :: os₂ →
      (∀ x ∈ os₁, x.shortName ≠ c) → o.shortName = c →
      parseShortKey st c p v =
        ({ st with opts := os₁ ++ (resolveOpt o p v).1 :: os₂ },
          wrapMsg (String.mk [c]) (resolveOpt o p v).2) ∧
      (resolveOpt o p v).1.present = true ∧
      (∀ (d : Int), o.val = .intV d → o.callback = none →
        (resolveOpt o p v).2 ≠ none → (resolveOpt o p v).1.val = .intV d) := by
  intro st c p v os₁ o os₂ hst h1 h2
  exact ⟨parseShortKey_first st c p v os₁ o os₂ hst h1 h2,
    resolveOpt_present o p v,
    fun d hval hcb hfail => resolveOpt_intFailure o p v d hval hcb hfail⟩

/-- C10 witness: the failing token `-j=z` (format error on the integer
option `js`): `js` is replaced in place, reports present, and keeps its
default stored value 1100. -/
theorem C10_presentBeforeCoercion_witness :
    parseShortKey testRegistry 'j' true ['z'] =
      ({ testRegistry with
          opts := [isOpt] ++ (resolveOpt jsOpt true ['z']).1 :: [ksOpt, lsOpt] },
        wrapMsg (String.mk ['j']) (resolveOpt jsOpt true ['z']).2) ∧
    (resolveOpt jsOpt true ['z']).1.present = true ∧
    (resolveOpt jsOpt true ['z']).1.val = .intV 1100 := by
  have h := C10_presentBeforeCoercion testRegistry 'j' true ['z']
    [isOpt] jsOpt [ksOpt, lsOpt] rfl (by decide) rfl
  exact ⟨h.1, h.2.1, h.2.2 1100 rfl rfl (by decide)⟩
